import Mathlib

/-!
# Verification of the pw_tokenizer argument decoder/encoder

A shallow embedding of the tokenized-message argument decoder and its
mirror-image encoder (the `pw_tokenizer` Python module: `decode.py` /
`encode.py`).  The repository snapshot ships only the module's test suite
(`pw_tokenizer/py/decode_test.py`); the decoder and encoder themselves are
modelled from the natural-language specification, with every behaviour that
the test suite pins down taken from the tests (the tests are the
authoritative code).  Text — format strings, rendered output, and the byte
buffers — is represented as `List Nat` (Unicode code points for text, byte
values `< 256` for buffers), which avoids committing to any particular
string type and keeps every definition executable.
-/

namespace Pw

/-- Code points of a Lean string literal, used to write format strings and
expected outputs readably. -/
def strCodes (s : String) : List Nat :=
  s.toList.map Char.toNat

/-! ## Variable-length integers (LEB128) and zig-zag mapping -/

/-- Modelled from the spec: the zig-zag mapping used before varint encoding
(`n` encoded as `(n<<1) ^ (n>>31)` in two's-complement semantics, which is
`2n` for `n ≥ 0` and `2(-n)-1` for `n < 0`).  The Python encoder applies it
to every integer argument. -/
def zigzag (n : Int) : Nat :=
  if 0 ≤ n then (2 * n).toNat else (2 * (-n) - 1).toNat

/-- Inverse zig-zag mapping, as performed by the decoder
(`(u >> 1) ^ -(u & 1)`). -/
def zigzagDecode (u : Nat) : Int :=
  if u % 2 = 0 then (u / 2 : Nat) else -((u / 2 : Nat) : Int) - 1

/-- Fuel-driven little-endian base-128 encoder (low 7 bits per byte, high
bit set on every byte except the last). -/
def leb128Aux : Nat → Nat → List Nat
  | 0, _ => []
  | f + 1, n => if n < 128 then [n] else (n % 128 + 128) :: leb128Aux f (n / 128)

/-- Modelled from the spec: little-endian base-128 varint encoding of an
unsigned integer (`encode.py`'s `_little_endian_base128_encode`). -/
def leb128 (n : Nat) : List Nat :=
  leb128Aux (n + 1) n

/-- Result of reading one varint: either the decoded unsigned value plus the
number of bytes consumed, or the number of bytes consumed before the
failure (buffer exhausted, or the continuation chain exceeded the integer
size). -/
inductive LebResult where
  | ok (value : Nat) (consumed : Nat)
  | fail (consumed : Nat)
  deriving DecidableEq, Repr

/-- Modelled from the spec: the decoder's varint loop.  Each byte
contributes its low 7 bits at the current shift; a byte with the high bit
clear terminates.  Exhausting the buffer first fails, and a continuation
byte whose following shift would reach `bits` fails (over-long encoding,
more than ⌈bits/7⌉ bytes). -/
def lebDecodeAux (bits : Nat) : List Nat → Nat → Nat → Nat → LebResult
  | [], _, _, count => .fail count
  | b :: rest, shift, acc, count =>
    let acc' := acc + b % 128 * 2 ^ shift
    if b % 256 < 128 then .ok acc' (count + 1)
    else if bits ≤ shift + 7 then .fail (count + 1)
    else lebDecodeAux bits rest (shift + 7) acc' (count + 1)

/-- Read one varint of at most `bits` payload bits from the front of `buf`. -/
def lebDecode (bits : Nat) (buf : List Nat) : LebResult :=
  lebDecodeAux bits buf 0 0 0

/-! ## Digit strings -/

/-- The character code of digit `d` (`0..9` then `a..f` or `A..F`). -/
def hexDigitChar (upper : Bool) (d : Nat) : Nat :=
  if d < 10 then 48 + d else if upper then 55 + d else 87 + d

/-- Fuel-driven most-significant-first digit accumulation. -/
def natToDigitsAux (base : Nat) (upper : Bool) : Nat → Nat → List Nat → List Nat
  | 0, _, acc => acc
  | _, 0, acc => acc
  | f + 1, n, acc => natToDigitsAux base upper f (n / base) (hexDigitChar upper (n % base) :: acc)

/-- The base-`base` digit characters of `n`, most significant first
(`0` renders as a single `0` digit). -/
def natToDigits (base : Nat) (upper : Bool) (n : Nat) : List Nat :=
  if n = 0 then [48] else natToDigitsAux base upper (n + 1) n []

/-- Decimal rendering of an integer with a leading minus sign when
negative, as Python prints an `int`. -/
def intToDec (n : Int) : List Nat :=
  (if n < 0 then [45] else []) ++ natToDigits 10 false n.natAbs

/-- Left-pad `l` with character `c` up to width `w`. -/
def padLeft (c w : Nat) (l : List Nat) : List Nat :=
  List.replicate (w - l.length) c ++ l

/-- Right-pad `l` with character `c` up to width `w`. -/
def padRight (c w : Nat) (l : List Nat) : List Nat :=
  l ++ List.replicate (w - l.length) c

/-! ## UTF-8 text (strings are wire-encoded as UTF-8 bytes) -/

/-- UTF-8 encoding of one code point (1 to 4 bytes). -/
def utf8EncodeChar (c : Nat) : List Nat :=
  if c < 0x80 then [c]
  else if c < 0x800 then [0xC0 + c / 64, 0x80 + c % 64]
  else if c < 0x10000 then [0xE0 + c / 4096, 0x80 + c / 64 % 64, 0x80 + c % 64]
  else [0xF0 + c / 262144, 0x80 + c / 4096 % 64, 0x80 + c / 64 % 64, 0x80 + c % 64]

/-- UTF-8 encoding of a sequence of code points. -/
def utf8Encode (s : List Nat) : List Nat :=
  (s.map utf8EncodeChar).flatten

/-- Is `b` a UTF-8 continuation byte (`0x80..0xBF`)? -/
def isCont (b : Nat) : Bool :=
  0x80 ≤ b && b < 0xC0

/-- The number of continuation bytes a UTF-8 lead byte announces, or
`none` when the byte cannot start a sequence (stray continuation bytes and
the over-long leads `0xC0`/`0xC1` and `> 0xF4` are invalid). -/
def utf8Need (b : Nat) : Option Nat :=
  if b < 0x80 then some 0
  else if b < 0xC2 then none
  else if b < 0xE0 then some 1
  else if b < 0xF0 then some 2
  else if b ≤ 0xF4 then some 3
  else none

/-- The payload bits of a UTF-8 lead byte. -/
def utf8First (b : Nat) : Nat :=
  if b < 0x80 then b
  else if b < 0xE0 then b - 0xC0
  else if b < 0xF0 then b - 0xE0
  else b - 0xF0

/-- Validity of the continuation bytes for lead `b`: all continuation
bytes, with the first one further restricted to rule out over-long forms
(`0xE0`/`0xF0` leads), surrogates (`0xED`) and code points past U+10FFFF
(`0xF4`). -/
def utf8ContOk (b : Nat) (cs : List Nat) : Bool :=
  cs.all isCont &&
    (match cs.head? with
     | some b1 =>
       (b != 0xE0 || 0xA0 ≤ b1) && (b != 0xED || b1 < 0xA0) &&
         (b != 0xF0 || 0x90 ≤ b1) && (b != 0xF4 || b1 < 0x90)
     | none => true)

/-- The code point assembled from a lead byte and its continuations. -/
def utf8Combine (b : Nat) (cs : List Nat) : Nat :=
  cs.foldl (fun a c => a * 64 + (c - 0x80)) (utf8First b)

/-- Fuel-driven worker for `utf8Decode`; every step consumes at least the
lead byte, so fuel exceeding the length suffices. -/
def utf8DecodeAux : Nat → List Nat → Option (List Nat)
  | 0, _ => none
  | _ + 1, [] => some []
  | f + 1, b :: rest =>
    match utf8Need b with
    | none => none
    | some n =>
      let cs := rest.take n
      if cs.length = n ∧ utf8ContOk b cs then
        (utf8DecodeAux f (rest.drop n)).map (utf8Combine b cs :: ·)
      else none

/-- Strict UTF-8 decoding, as performed by Python text decoding: rejects
stray continuation bytes, over-long forms and surrogate code points.
Returns the code points, or `none` for invalid data. -/
def utf8Decode (l : List Nat) : Option (List Nat) :=
  utf8DecodeAux (l.length + 1) l

/-- One byte of the Python `repr` of a bytes object (used for the value
shown in a string decode-error placeholder): printable ASCII stays itself,
backslash and quote are escaped, tab/newline/return use their short escape,
everything else becomes a lowercase hex escape. -/
def reprByte (b : Nat) : List Nat :=
  if b = 92 then [92, 92]
  else if b = 39 then [92, 39]
  else if b = 9 then [92, 116]
  else if b = 10 then [92, 110]
  else if b = 13 then [92, 114]
  else if 32 ≤ b && b ≤ 126 then [b]
  else [92, 120, hexDigitChar false (b / 16 % 16), hexDigitChar false (b % 16)]

/-- The Python bytes `repr` with the leading `b` stripped: a quoted, escaped
rendering of raw bytes. -/
def reprBytes (data : List Nat) : List Nat :=
  39 :: (data.map reprByte).flatten ++ [39]

/-! ## Format specifiers

Modelled from the spec (section 4.1): one `%...conv` directive parsed into
flags, optional width, optional precision, optional length modifier and a
conversion character.  Character codes: `%` 37, `-` 45, `+` 43, space 32,
`#` 35, `0` 48, `.` 46. -/

/-- printf length modifiers (`hh`, `h`, `l`, `ll`, `j`, `z`, `t`, `L`). -/
inductive LengthMod where
  | nil
  | hh
  | h
  | l
  | ll
  | j
  | z
  | t
  | bigL
  deriving DecidableEq, Repr

/-- A parsed conversion directive.  `text` is the original specifier text
including the leading `%`; `conv` is the conversion character code. -/
structure FormatSpec where
  text : List Nat
  flagMinus : Bool
  flagPlus : Bool
  flagSpace : Bool
  flagHash : Bool
  flagZero : Bool
  width : Option Nat
  precision : Option Nat
  lengthMod : LengthMod
  conv : Nat
  deriving DecidableEq, Repr

/-- Integer payload width: 64 bits for `ll`/`j`, otherwise 32. -/
def FormatSpec.sizeBits (s : FormatSpec) : Nat :=
  match s.lengthMod with
  | .ll => 64
  | .j => 64
  | _ => 32

/-- Flag characters `- + space # 0`. -/
def isFlagChar (c : Nat) : Bool :=
  c == 45 || c == 43 || c == 32 || c == 35 || c == 48

/-- ASCII decimal digit. -/
def isDigitChar (c : Nat) : Bool :=
  48 ≤ c && c ≤ 57

/-- Value of a most-significant-first digit string. -/
def digitsToNat (ds : List Nat) : Nat :=
  ds.foldl (fun a c => a * 10 + (c - 48)) 0

/-- Length modifier parse: returns the modifier, its characters, and the
rest (matching `ll`/`hh` greedily before `l`/`h`). -/
def parseLengthMod : List Nat → LengthMod × List Nat × List Nat
  | 104 :: 104 :: r => (.hh, [104, 104], r)
  | 104 :: r => (.h, [104], r)
  | 108 :: 108 :: r => (.ll, [108, 108], r)
  | 108 :: r => (.l, [108], r)
  | 106 :: r => (.j, [106], r)
  | 122 :: r => (.z, [122], r)
  | 116 :: r => (.t, [116], r)
  | 76 :: r => (.bigL, [76], r)
  | r => (.nil, [], r)

/-- Modelled from the spec: parse one directive from the characters that
follow a `%`.  Flags in any order, then width digits, then `.` and
precision digits (defaulting to 0 when `.` has no digits), then a length
modifier, then the conversion character.  A missing conversion character
yields conversion code 0, which no legality check accepts (malformed specs
always reject). -/
def parseSpec (cs : List Nat) : FormatSpec × List Nat :=
  let flags := cs.takeWhile isFlagChar
  let r1 := cs.dropWhile isFlagChar
  let wds := r1.takeWhile isDigitChar
  let r2 := r1.dropWhile isDigitChar
  let pr :=
    match r2 with
    | 46 :: r =>
      (some (digitsToNat (r.takeWhile isDigitChar)), 46 :: r.takeWhile isDigitChar,
        r.dropWhile isDigitChar)
    | _ => ((none : Option Nat), ([] : List Nat), r2)
  let lm := parseLengthMod pr.2.2
  let cv :=
    match lm.2.2 with
    | c :: r => (c, [c], r)
    | [] => (0, ([] : List Nat), ([] : List Nat))
  ({ text := 37 :: (flags ++ wds ++ pr.2.1 ++ lm.2.1 ++ cv.2.1)
     flagMinus := flags.contains 45
     flagPlus := flags.contains 43
     flagSpace := flags.contains 32
     flagHash := flags.contains 35
     flagZero := flags.contains 48
     width := if wds.isEmpty then none else some (digitsToNat wds)
     precision := pr.1
     lengthMod := lm.1
     conv := cv.1 }, cv.2.2)

/-- The conversion characters the decoder supports:
`d i u o x X f F e E g G c s p %`. -/
def supportedConvChars : List Nat :=
  [100, 105, 117, 111, 120, 88, 102, 70, 101, 69, 103, 71, 99, 115, 112, 37]

/-- Modelled from the spec (section 4.1 legality table, pinned by the
tests): a specifier is rejected at parse time when its conversion is
unsupported (notably `%n`), when `#` is given for signed decimal, unsigned
decimal, char, string, pointer or the percent literal, when `0` is given
for char, string, pointer or percent, when `+`/space is given for char,
string or percent, or when `-` is given for percent. -/
def FormatSpec.err (s : FormatSpec) : Bool :=
  !(supportedConvChars.contains s.conv) ||
  (s.flagHash && [100, 105, 117, 99, 115, 112, 37].contains s.conv) ||
  (s.flagZero && [99, 115, 112, 37].contains s.conv) ||
  ((s.flagPlus || s.flagSpace) && [99, 115, 37].contains s.conv) ||
  (s.flagMinus && s.conv == 37)

/-! ## Decoded arguments -/

/-- The typed value carried by a decoded argument: an integer, text
(either decoded string data or the quoted repr shown for invalid data),
or the raw bit pattern of a binary64 float. -/
inductive DecodedVal where
  | int (n : Int)
  | text (s : List Nat)
  | double (bits : Nat)
  deriving DecidableEq, Repr

/-- Three-state outcome of one directive, as in the spec data model:
`Success`, `Error` (parse or decode failure), or `Skipped` (a strictly
earlier directive failed first). -/
inductive ArgStatus where
  | success
  | error
  | skipped
  deriving DecidableEq, Repr

/-- One decoded argument: its specifier, optional value, the raw bytes it
consumed, and its status. -/
structure DecodedArg where
  spec : FormatSpec
  value : Option DecodedVal
  raw : List Nat
  status : ArgStatus
  deriving DecidableEq, Repr

/-- Did this argument decode without error? -/
def DecodedArg.isOk (a : DecodedArg) : Bool :=
  match a.status with
  | .success => true
  | _ => false

/-! ## The argument decoder

Modelled from the spec (section 4.2), with the wire interpretation pinned
by the tests: every integer conversion reads a zig-zag varint (the tests
decode `%u` of the byte 0x14 as 10 and `%p` of 0x02 as 0x00000001, so the
unsigned family re-interprets the zig-zag-decoded signed value modulo
2^size rather than reading a plain varint). -/

/-- Signed varint decode (`d`/`i`): zig-zag varint, value kept as-is. -/
def decodeSignedVarint (s : FormatSpec) (buf : List Nat) : DecodedArg :=
  match lebDecode s.sizeBits buf with
  | .ok u c => ⟨s, some (.int (zigzagDecode u)), buf.take c, .success⟩
  | .fail c => ⟨s, none, buf.take c, .error⟩

/-- Unsigned-family varint decode (`u`/`o`/`x`/`X`/`p`): zig-zag varint,
then the signed value reduced modulo 2^size (the Python code masks with
`(1 << size) - 1`). -/
def decodeUnsignedVarint (s : FormatSpec) (buf : List Nat) : DecodedArg :=
  match lebDecode s.sizeBits buf with
  | .ok u c => ⟨s, some (.int (zigzagDecode u % (2 ^ s.sizeBits : Int))), buf.take c, .success⟩
  | .fail c => ⟨s, none, buf.take c, .error⟩

/-- Char decode: a zig-zag varint whose value must be a code point Python
`chr` accepts (0 ≤ n ≤ 0x10FFFF); otherwise the argument is an error
carrying the offending integer (the tests show `%c` of 0x01 failing with
value -1). -/
def decodeCharArg (s : FormatSpec) (buf : List Nat) : DecodedArg :=
  match lebDecode s.sizeBits buf with
  | .ok u c =>
    let n := zigzagDecode u
    if 0 ≤ n && n ≤ 0x10FFFF then ⟨s, some (.int n), buf.take c, .success⟩
    else ⟨s, some (.int n), buf.take c, .error⟩
  | .fail c => ⟨s, none, buf.take c, .error⟩

/-- String decode, as pinned by the tests: a single length byte whose high
bit flags encoder-side truncation, followed by that many bytes of UTF-8
text.  Fails when the buffer is empty, shorter than the advertised length,
when the data is not valid UTF-8 (the value then carries the quoted repr
of the attempted bytes), or when the truncation flag is set. -/
def decodeStringArg (s : FormatSpec) (buf : List Nat) : DecodedArg :=
  match buf with
  | [] => ⟨s, none, [], .error⟩
  | szst :: rest =>
    let trunc := 128 ≤ szst % 256
    let size := szst % 128
    let data := rest.take size
    let raw := buf.take (size + 1)
    match utf8Decode data with
    | some t =>
      ⟨s, some (.text t), raw, if trunc || data.length < size then .error else .success⟩
    | none => ⟨s, some (.text (reprBytes data)), raw, .error⟩

/-- Modelled from the spec: floats travel as a fixed 8-byte little-endian
binary64 value; decoding fails only on buffer underflow. -/
def decodeFloatArg (s : FormatSpec) (buf : List Nat) : DecodedArg :=
  if buf.length < 8 then ⟨s, none, [], .error⟩
  else ⟨s, some (.double ((buf.take 8).foldr (fun x a => x % 256 + 256 * a) 0)),
    buf.take 8, .success⟩

/-- Decode one argument according to its specifier.  A specifier rejected
at parse time is an immediate error consuming zero bytes; the percent
literal always succeeds consuming zero bytes. -/
def FormatSpec.decode (s : FormatSpec) (buf : List Nat) : DecodedArg :=
  if s.err then ⟨s, none, [], .error⟩
  else if s.conv == 37 then ⟨s, none, [], .success⟩
  else if s.conv == 100 || s.conv == 105 then decodeSignedVarint s buf
  else if s.conv == 99 then decodeCharArg s buf
  else if [117, 111, 120, 88, 112].contains s.conv then decodeUnsignedVarint s buf
  else if s.conv == 115 then decodeStringArg s buf
  else decodeFloatArg s buf

/-! ## Rendering successful fields (C printf semantics, section 4.2) -/

/-- The sign characters placed before a numeric field: `-` for negative
values, else `+` under the force-sign flag, else a space under the
space-sign flag (space is subsumed by `+`). -/
def signChars (s : FormatSpec) (neg : Bool) : List Nat :=
  if neg then [45] else if s.flagPlus then [43] else if s.flagSpace then [32] else []

/-- Final width padding: left-justify pads with spaces on the right;
zero-pad (when legal for the conversion and not overridden by `-`)
inserts zeros between the sign/prefix `head` and the `body` digits;
otherwise spaces pad on the left. -/
def assembleField (s : FormatSpec) (zeroAllowed : Bool) (head body : List Nat) : List Nat :=
  let w := s.width.getD 0
  if s.flagMinus then padRight 32 w (head ++ body)
  else if s.flagZero && zeroAllowed then head ++ padLeft 48 (w - head.length) body
  else padLeft 32 w (head ++ body)

/-- Integer rendering for `d i u o x X`: base digits with optional
precision zero-padding, the `#` alternate prefix (`0` for octal,
`0x`/`0X` for nonzero hex), sign characters, and width padding.  The `0`
flag is ignored when a precision is given, as in C. -/
def renderIntArg (s : FormatSpec) (n : Int) : List Nat :=
  let mag := n.natAbs
  let base := if s.conv == 111 then 8 else if s.conv == 120 || s.conv == 88 then 16 else 10
  let digits0 := if mag == 0 && s.precision == some 0 then [] else natToDigits base (s.conv == 88) mag
  let digits1 :=
    match s.precision with
    | some p => padLeft 48 p digits0
    | none => digits0
  let digits2 :=
    if s.conv == 111 && s.flagHash && digits1.head? != some 48 then 48 :: digits1 else digits1
  let pfx :=
    if (s.conv == 120 || s.conv == 88) && s.flagHash && mag ≠ 0 then
      (if s.conv == 88 then [48, 88] else [48, 120])
    else []
  assembleField s s.precision.isNone (signChars s (n < 0) ++ pfx) digits2

/-- Pointer rendering, pinned by the tests: sign characters (``+``/space
are legal for `%p`), then the literal `0x`, then exactly 8 zero-padded
uppercase hex digits, then width padding. -/
def renderPointerArg (s : FormatSpec) (n : Int) : List Nat :=
  assembleField s false (signChars s (n < 0) ++ [48, 120])
    (padLeft 48 8 (natToDigits 16 true n.natAbs))

/-- Char rendering: the single code point, width-padded. -/
def renderCharArg (s : FormatSpec) (n : Int) : List Nat :=
  assembleField s false [] [n.toNat]

/-- String rendering: precision truncates, width pads. -/
def renderStringField (s : FormatSpec) (t : List Nat) : List Nat :=
  let t2 :=
    match s.precision with
    | some p => t.take p
    | none => t
  assembleField s false [] t2

/-! ## Rendering floats

Modelled from the spec (section 4.2): printf semantics for
`f F e E g G` over the binary64 value, computed exactly with rational
arithmetic and round-half-to-even; non-finite values render as
`inf`/`nan`, upper-cased for the uppercase conversions, with the zero-pad
flag ignored. -/

/-- `num / den` rounded half to even. -/
def roundHalfEven (num den : Nat) : Nat :=
  let q := num / den
  let r := num % den
  q + (if den < 2 * r || (2 * r == den && q % 2 == 1) then 1 else 0)

/-- Smallest `t ≥ start` with `x · 10^(t - start) ≥ d` (fuel-driven). -/
def decExpAux : Nat → Nat → Nat → Nat → Nat
  | 0, _, _, t => t
  | f + 1, x, d, t => if d ≤ x then t else decExpAux f (x * 10) d (t + 1)

/-- The decimal exponent of the positive value `m · 2^e`: the unique `x`
with `10^x ≤ m · 2^e < 10^(x+1)`. -/
def decExp (m : Nat) (e : Int) : Int :=
  if 0 ≤ e then ((natToDigits 10 false (m * 2 ^ e.toNat)).length : Int) - 1
  else
    let d := 2 ^ (-e).toNat
    if d ≤ m then ((natToDigits 10 false (m / d)).length : Int) - 1
    else -(decExpAux 400 (m * 10) d 1 : Int)

/-- Fixed-point body (`%f`): integer digits, then `.` and exactly `p`
fraction digits (the point appears with zero precision only under `#`). -/
def fixedBody (m : Nat) (e : Int) (p : Nat) (hash : Bool) : List Nat :=
  let n := roundHalfEven (m * 10 ^ p * 2 ^ e.toNat) (2 ^ (-e).toNat)
  natToDigits 10 false (n / 10 ^ p) ++
    (if p == 0 then (if hash then [46] else [])
     else 46 :: padLeft 48 p (natToDigits 10 false (n % 10 ^ p)))

/-- Scientific split of positive `m · 2^e` at precision `p`: the decimal
exponent together with the `p+1` significant digits as an integer in
`[10^p, 10^(p+1))`, with the exponent bumped when rounding carries. -/
def sciSplit (m : Nat) (e : Int) (p : Nat) : Int × Nat :=
  let x := decExp m e
  let e10 : Int := (p : Int) - x
  let num := m * 2 ^ e.toNat * 10 ^ e10.toNat
  let den := 2 ^ (-e).toNat * 10 ^ (-e10).toNat
  let n := roundHalfEven num den
  if n == 10 ^ (p + 1) then (x + 1, 10 ^ p) else (x, n)

/-- The exponent suffix `e±dd` (at least two digits). -/
def expSuffix (upper : Bool) (x : Int) : List Nat :=
  [if upper then 69 else 101] ++ (if x < 0 then [45] else [43]) ++
    padLeft 48 2 (natToDigits 10 false x.natAbs)

/-- Exponential body (`%e`): one leading digit, `.`, `p` fraction digits,
and signed two-digit exponent. -/
def sciBody (m : Nat) (e : Int) (p : Nat) (hash upper : Bool) : List Nat :=
  let xn := if m == 0 then ((0 : Int), 0) else sciSplit m e p
  let ds := padLeft 48 (p + 1) (natToDigits 10 false xn.2)
  ds.take 1 ++ (if p == 0 then (if hash then [46] else []) else 46 :: ds.drop 1) ++
    expSuffix upper xn.1

/-- Remove trailing zero digits. -/
def stripTrailingZeros (l : List Nat) : List Nat :=
  (l.reverse.dropWhile (· == 48)).reverse

/-- Shortest-form body (`%g`): precision `p` significant digits; uses the
exponential style when the decimal exponent is below -4 or at least `p`,
otherwise fixed style; trailing zeros (and a bare point) are removed
unless `#` is given. -/
def gBody (m : Nat) (e : Int) (p0 : Nat) (hash upper : Bool) : List Nat :=
  let p := max p0 1
  let xn := if m == 0 then ((0 : Int), 0) else sciSplit m e (p - 1)
  let x := xn.1
  if x < -4 || (p : Int) ≤ x then
    let ds := padLeft 48 p (natToDigits 10 false xn.2)
    let frac := if hash then ds.drop 1 else stripTrailingZeros (ds.drop 1)
    ds.take 1 ++ (if frac.isEmpty && !hash then [] else 46 :: frac) ++ expSuffix upper x
  else
    let q := ((p : Int) - 1 - x).toNat
    let nn := roundHalfEven (m * 10 ^ q * 2 ^ e.toNat) (2 ^ (-e).toNat)
    let ip := natToDigits 10 false (nn / 10 ^ q)
    let frac0 := if q == 0 then [] else padLeft 48 q (natToDigits 10 false (nn % 10 ^ q))
    let frac := if hash then frac0 else stripTrailingZeros frac0
    ip ++ (if frac.isEmpty && !hash then [] else 46 :: frac)

/-- Full float rendering from the binary64 bit pattern. -/
def renderFloatArg (s : FormatSpec) (bits : Nat) : List Nat :=
  let upper := s.conv == 70 || s.conv == 69 || s.conv == 71
  let negative := bits / 2 ^ 63 % 2 == 1
  let expF : Nat := bits / 2 ^ 52 % 2 ^ 11
  let mant : Nat := bits % 2 ^ 52
  let head := signChars s negative
  if expF == 2047 then
    let body :=
      if mant == 0 then (if upper then strCodes "INF" else strCodes "inf")
      else (if upper then strCodes "NAN" else strCodes "nan")
    assembleField s false head body
  else
    let m := if expF == 0 then mant else mant + 2 ^ 52
    let e : Int := if expF == 0 then -1074 else (expF : Int) - 1075
    let body :=
      if s.conv == 102 || s.conv == 70 then fixedBody m e (s.precision.getD 6) s.flagHash
      else if s.conv == 101 || s.conv == 69 then
        sciBody m e (s.precision.getD 6) s.flagHash upper
      else gBody m e (s.precision.getD 6) s.flagHash upper
    assembleField s true head body

/-! ## Rendering one argument and the whole message -/

/-- Render a successfully decoded argument per its conversion. -/
def renderSuccess (s : FormatSpec) (v : Option DecodedVal) : List Nat :=
  if s.conv == 37 then [37]
  else
    match v with
    | some (.int n) =>
      if s.conv == 112 then renderPointerArg s n
      else if s.conv == 99 then renderCharArg s n
      else renderIntArg s n
    | some (.text t) => renderStringField s t
    | some (.double bits) => renderFloatArg s bits
    | none => []

/-- The parenthesised value shown inside an error/skip placeholder, when
the argument carries one.  A float value is shown in shortest form
(Python would print `str(float)`; modelled with the shortest style at 17
significant digits). -/
def placeholderVal : Option DecodedVal → List Nat
  | some (.int n) => strCodes " (" ++ intToDec n ++ strCodes ")"
  | some (.text t) => strCodes " (" ++ t ++ strCodes ")"
  | some (.double bits) =>
    strCodes " (" ++
      renderFloatArg ⟨[], false, false, false, false, false, none, some 17, .nil, 103⟩ bits ++
      strCodes ")"
  | none => []

/-- Render one argument for the final message text: successful arguments
render their field; failed or skipped ones render either the diagnostic
placeholder (`<[%spec ERROR (value)]>` / `<[%spec SKIPPED (value)]>`)
when error rendering was requested, or the original specifier text
verbatim otherwise. -/
def DecodedArg.render (a : DecodedArg) (showErrs : Bool) : List Nat :=
  match a.status with
  | .success => renderSuccess a.spec a.value
  | .error =>
    if showErrs then
      strCodes "<[" ++ a.spec.text ++ strCodes " ERROR" ++ placeholderVal a.value ++ strCodes "]>"
    else a.spec.text
  | .skipped =>
    if showErrs then
      strCodes "<[" ++ a.spec.text ++ strCodes " SKIPPED" ++ placeholderVal a.value ++
        strCodes "]>"
    else a.spec.text

/-- One token of a tokenized format string: a literal character or a
directive. -/
inductive FmtToken where
  | lit (c : Nat)
  | dir (s : FormatSpec)
  deriving DecidableEq, Repr

/-- Tokenizer worker; the fuel strictly exceeds the character count, and
every step consumes at least one character. -/
def tokenizeAux : Nat → List Nat → List FmtToken
  | 0, _ => []
  | _, [] => []
  | f + 1, 37 :: rest =>
    let sr := parseSpec rest
    .dir sr.1 :: tokenizeAux f sr.2
  | f + 1, c :: rest => .lit c :: tokenizeAux f rest

/-- Split a format string into literal characters and directives, in
order. -/
def tokenize (fmt : List Nat) : List FmtToken :=
  tokenizeAux (fmt.length + 1) fmt

/-- The directives of a token list, in order. -/
def dirSpecs (ts : List FmtToken) : List FormatSpec :=
  ts.filterMap fun t =>
    match t with
    | .dir s => some s
    | .lit _ => none

/-- The decode loop, pinned by the tests: every directive is decoded
against the current buffer position and the cursor advances past the
bytes it consumed; once any directive has failed, each later argument is
re-labelled `Skipped` (its tentatively decoded value is kept for
diagnostics — the tests show `SKIPPED (-1)` placeholders — and its bytes
still advance the cursor). -/
def decodeArgs : List FormatSpec → List Nat → Bool → List DecodedArg × List Nat
  | [], buf, _ => ([], buf)
  | s :: rest, buf, fatal =>
    let arg0 := s.decode buf
    let arg := if fatal then { arg0 with status := .skipped } else arg0
    let next := decodeArgs rest (buf.drop arg0.raw.length) (fatal || !arg0.isOk)
    (arg :: next.1, next.2)

/-- The result of decoding a whole message: the rendered text, the
per-directive outcomes in order, and the unconsumed tail of the buffer. -/
structure FormattedString where
  value : List Nat
  args : List DecodedArg
  remaining : List Nat
  deriving DecidableEq, Repr

/-- Interleave literal characters with rendered arguments. -/
def renderTokens : List FmtToken → List DecodedArg → Bool → List Nat
  | [], _, _ => []
  | .lit c :: ts, args, e => c :: renderTokens ts args e
  | .dir _ :: ts, [], e => renderTokens ts [] e
  | .dir _ :: ts, a :: args, e => a.render e ++ renderTokens ts args e

/-- `FormatString(fmt).format(buf)`: tokenize, decode every directive,
and render. -/
def formatMsg (fmt buf : List Nat) (showErrs : Bool) : FormattedString :=
  let toks := tokenize fmt
  let res := decodeArgs (dirSpecs toks) buf false
  ⟨renderTokens toks res.1 showErrs, res.1, res.2⟩

/-- The `decode.decode` convenience wrapper: only the rendered text. -/
def decodeMsg (fmt buf : List Nat) (showErrs : Bool) : List Nat :=
  (formatMsg fmt buf showErrs).value

/-- `ok()`: every argument decoded successfully and no bytes remain. -/
def FormattedString.ok (r : FormattedString) : Bool :=
  r.args.all (fun a => a.isOk) && r.remaining.isEmpty

/-- The maximum representable timestamp (`datetime.max` in microseconds
since the calendar origin), used when no recency is supplied. -/
def datetimeMax : Nat := 315537897599999999

/-- The score 5-tuple: `(ok, fully consumed, -(failed directives),
directive count, recency)`. -/
abbrev Score := Bool × Bool × Int × Nat × Nat

/-- `score(recency?)`: larger is better, compared lexicographically. -/
def FormattedString.score (r : FormattedString) (recency : Option Nat) : Score :=
  (r.ok, r.remaining.isEmpty,
    -(((r.args.filter fun a => !a.isOk).length : Int)),
    r.args.length, recency.getD datetimeMax)

/-- Python tuple comparison on scores: strict lexicographic less-than with
`False < True` on the boolean fields. -/
def scoreLt : Score → Score → Bool
  | (a1, a2, a3, a4, a5), (b1, b2, b3, b4, b5) =>
    (!a1 && b1) ||
      (a1 == b1 && ((!a2 && b2) ||
        (a2 == b2 && (decide (a3 < b3) ||
          (a3 == b3 && (decide (a4 < b4) ||
            (a4 == b4 && decide (a5 < b5))))))))

/-! ## The argument encoder (section 4.5)

Modelled from the spec: the mirror image of the decoder, used to build
test payloads.  Every integer is zig-zag varint encoded; strings are a
length byte (high bit set on encoder-side truncation past 127 bytes)
followed by UTF-8 data; floats are the fixed 8-byte binary64 pattern. -/

/-- A typed value given to the encoder. -/
inductive ArgValue where
  | int (n : Int)
  | str (s : List Nat)
  | double (bits : Nat)
  deriving DecidableEq, Repr

/-- Zig-zag varint encoding of one integer argument. -/
def encodeIntArg (n : Int) : List Nat :=
  leb128 (zigzag n)

/-- Length byte plus UTF-8 data, truncating past 127 bytes with the high
bit flagging the truncation. -/
def encodeStrArg (s : List Nat) : List Nat :=
  let b := utf8Encode s
  if b.length ≤ 127 then b.length :: b else 255 :: b.take 127

/-- Fixed 8-byte little-endian binary64 pattern. -/
def encodeDoubleArg (bits : Nat) : List Nat :=
  [bits % 256, bits / 256 % 256, bits / 65536 % 256, bits / 16777216 % 256,
    bits / 4294967296 % 256, bits / 1099511627776 % 256,
    bits / 281474976710656 % 256, bits / 72057594037927936 % 256]

/-- Encode one value. -/
def encodeArg : ArgValue → List Nat
  | .int n => encodeIntArg n
  | .str s => encodeStrArg s
  | .double bits => encodeDoubleArg bits

/-- `encode.encode_args`: concatenation of the encoded values. -/
def encodeArgsList (l : List ArgValue) : List Nat :=
  (l.map encodeArg).flatten

/-! ## Legal (specifier, value) pairs and direct formatting

These definitions support the round-trip statement: `legalPair` says the
value matches the conversion and is in range for the wire format, and
`renderDirect` is the text obtained by formatting the value directly
under the specifier (the same field renderer the decoder uses). -/

/-- The decoded form of an encoder value. -/
def decodedForm : ArgValue → DecodedVal
  | .int n => .int n
  | .str s => .text s
  | .double bits => .double bits

/-- Directly format a value under a specifier. -/
def renderDirect (s : FormatSpec) (v : ArgValue) : List Nat :=
  renderSuccess s (some (decodedForm v))

/-- A legal (specifier, value) pair: the specifier parses without error,
the value type matches the conversion, and the value is in range
(signed range for `d`/`i`, unsigned range for `u o x X p`, a valid code
point for `c`, text of at most 127 ASCII code points for `s`, and a
64-bit pattern for the float conversions). -/
def legalPair (s : FormatSpec) (v : ArgValue) : Bool :=
  !s.err &&
    match v with
    | .int n =>
      ((s.conv == 100 || s.conv == 105) && decide (-(2 ^ (s.sizeBits - 1) : Int) ≤ n) &&
        decide (n < (2 ^ (s.sizeBits - 1) : Int))) ||
      ([117, 111, 120, 88, 112].contains s.conv && decide (0 ≤ n) &&
        decide (n < (2 ^ s.sizeBits : Int))) ||
      (s.conv == 99 && decide (0 ≤ n) && decide (n ≤ 0x10FFFF))
    | .str t => s.conv == 115 && decide (t.length ≤ 127) && t.all (fun c => c < 128)
    | .double bits => [102, 70, 101, 69, 103, 71].contains s.conv && decide (bits < 2 ^ 64)

/-! ## Varint lemmas -/

theorem leb128Aux_congr : ∀ n f g, n < f → n < g → leb128Aux f n = leb128Aux g n := by
  intro n
  induction n using Nat.strong_induction_on with
  | _ n ih =>
    intro f g hf hg
    match f, g with
    | f' + 1, g' + 1 =>
      simp only [leb128Aux]
      by_cases h : n < 128
      · simp [h]
      · simp only [h, if_false]
        have hdiv : n / 128 < n := Nat.div_lt_self (by omega) (by omega)
        rw [ih (n / 128) hdiv f' g' (by omega) (by omega)]

theorem leb128_eq (n : Nat) :
    leb128 n = if n < 128 then [n] else (n % 128 + 128) :: leb128 (n / 128) := by
  unfold leb128
  conv_lhs => rw [leb128Aux]
  by_cases h : n < 128
  · simp [h]
  · simp only [h, if_false]
    have hdiv : n / 128 < n := Nat.div_lt_self (by omega) (by omega)
    rw [leb128Aux_congr (n / 128) n (n / 128 + 1) (by omega) (by omega)]

theorem lebDecodeAux_leb128Aux (bits : Nat) :
    ∀ k u f rest shift acc count, u < f → u < 2 ^ (7 * k) → shift + 7 * k ≤ bits + 6 →
      lebDecodeAux bits (leb128Aux f u ++ rest) shift acc count =
        .ok (acc + u * 2 ^ shift) (count + (leb128Aux f u).length) := by
  intro k
  induction k with
  | zero =>
    intro u f rest shift acc count hf hu _
    have hu0 : u = 0 := by simpa using hu
    subst hu0
    match f with
    | f' + 1 =>
      simp [leb128Aux, lebDecodeAux]
  | succ k ih =>
    intro u f rest shift acc count hf hu hbits
    match f with
    | f' + 1 =>
      by_cases h : u < 128
      · simp only [leb128Aux, h, if_true, List.cons_append, List.nil_append]
        simp only [lebDecodeAux]
        have h256 : u % 256 = u := Nat.mod_eq_of_lt (by omega)
        have h128 : u % 128 = u := Nat.mod_eq_of_lt h
        simp [h256, h128, h, List.length_cons]
      · have hk : 1 ≤ k := by
          by_contra hk0
          have : k = 0 := by omega
          subst this
          simp at hu
          omega
        simp only [leb128Aux, h, if_false, List.cons_append]
        simp only [lebDecodeAux]
        have hb : (u % 128 + 128) % 256 = u % 128 + 128 := by
          have := Nat.mod_lt u (show 0 < 128 by omega)
          omega
        have hblt : ¬ (u % 128 + 128) % 256 < 128 := by omega
        have hshift : ¬ bits ≤ shift + 7 := by omega
        simp only [hblt, if_false, hshift]
        have hdivf : u / 128 < f' := by
          have : u / 128 < u := Nat.div_lt_self (by omega) (by omega)
          omega
        have hdivk : u / 128 < 2 ^ (7 * k) := by
          rw [Nat.div_lt_iff_lt_mul (by omega : (0:Nat) < 128)]
          calc u < 2 ^ (7 * (k + 1)) := hu
            _ = 2 ^ (7 * k) * 128 := by rw [show 7 * (k + 1) = 7 * k + 7 by ring, pow_add]; norm_num
        rw [ih (u / 128) f' rest (shift + 7) _ _ hdivf hdivk (by omega)]
        have hmod : (u % 128 + 128) % 128 = u % 128 := by omega
        have hval : acc + (u % 128 + 128) % 128 * 2 ^ shift + u / 128 * 2 ^ (shift + 7) =
            acc + u * 2 ^ shift := by
          rw [hmod]
          have hp : (2 : Nat) ^ (shift + 7) = 2 ^ shift * 128 := by rw [pow_add]; norm_num
          calc acc + u % 128 * 2 ^ shift + u / 128 * 2 ^ (shift + 7)
              = acc + (u % 128 + 128 * (u / 128)) * 2 ^ shift := by rw [hp]; ring
            _ = acc + u * 2 ^ shift := by rw [Nat.mod_add_div]
        rw [hval]
        simp only [List.length_cons]
        congr 1
        omega

theorem lebDecode_leb128 (bits k u : Nat) (rest : List Nat)
    (hu : u < 2 ^ (7 * k)) (hk : 7 * k ≤ bits + 6) :
    lebDecode bits (leb128 u ++ rest) = .ok u (leb128 u).length := by
  unfold lebDecode leb128
  have := lebDecodeAux_leb128Aux bits k u (u + 1) rest 0 0 0 (by omega) hu (by omega)
  simpa using this

theorem zigzag_decode_inv (n : Int) : zigzagDecode (zigzag n) = n := by
  unfold zigzag zigzagDecode
  split_ifs <;> omega

theorem zigzag_lt_signed (n : Int) (b : Nat) (h1 : -(2 ^ b : Int) ≤ n) (h2 : n < 2 ^ b) :
    zigzag n < 2 ^ (b + 1) := by
  have hn : ((2 ^ b : Nat) : Int) = 2 ^ b := by push_cast; ring
  have hB : (2 : Nat) ^ (b + 1) = 2 * 2 ^ b := by rw [pow_succ]; ring
  unfold zigzag
  rw [hB]
  split_ifs <;> omega

theorem zigzag_lt_unsigned (n : Int) (b : Nat) (h1 : 0 ≤ n) (h2 : n < 2 ^ b) :
    zigzag n < 2 ^ (b + 1) := by
  have hn : ((2 ^ b : Nat) : Int) = 2 ^ b := by push_cast; ring
  have hB : (2 : Nat) ^ (b + 1) = 2 * 2 ^ b := by rw [pow_succ]; ring
  unfold zigzag
  rw [hB]
  split_ifs
  omega

/-! ## Decoder lemmas for encoded arguments -/

theorem decodeSigned_encode (s : FormatSpec) (n : Int) (k : Nat)
    (hu : zigzag n < 2 ^ (7 * k)) (hk : 7 * k ≤ s.sizeBits + 6) :
    decodeSignedVarint s (leb128 (zigzag n)) =
      ⟨s, some (.int n), leb128 (zigzag n), .success⟩ := by
  unfold decodeSignedVarint
  have h := lebDecode_leb128 s.sizeBits k (zigzag n) [] hu hk
  rw [List.append_nil] at h
  rw [h]
  simp [zigzag_decode_inv, List.take_length]

theorem decodeUnsigned_encode (s : FormatSpec) (n : Int) (k : Nat)
    (h0 : 0 ≤ n) (hsz : n < (2 : Int) ^ s.sizeBits)
    (hu : zigzag n < 2 ^ (7 * k)) (hk : 7 * k ≤ s.sizeBits + 6) :
    decodeUnsignedVarint s (leb128 (zigzag n)) =
      ⟨s, some (.int n), leb128 (zigzag n), .success⟩ := by
  unfold decodeUnsignedVarint
  have h := lebDecode_leb128 s.sizeBits k (zigzag n) [] hu hk
  rw [List.append_nil] at h
  rw [h]
  dsimp only
  rw [zigzag_decode_inv, Int.emod_eq_of_lt h0 hsz, List.take_length]

theorem decodeChar_encode (s : FormatSpec) (n : Int) (k : Nat)
    (h0 : 0 ≤ n) (hle : n ≤ 0x10FFFF)
    (hu : zigzag n < 2 ^ (7 * k)) (hk : 7 * k ≤ s.sizeBits + 6) :
    decodeCharArg s (leb128 (zigzag n)) =
      ⟨s, some (.int n), leb128 (zigzag n), .success⟩ := by
  unfold decodeCharArg
  have h := lebDecode_leb128 s.sizeBits k (zigzag n) [] hu hk
  rw [List.append_nil] at h
  rw [h]
  simp [zigzag_decode_inv, List.take_length]
  exact ⟨h0, hle⟩

theorem utf8Encode_ascii (t : List Nat) (h : ∀ c ∈ t, c < 128) : utf8Encode t = t := by
  induction t with
  | nil => rfl
  | cons c rest ih =>
    have hc : c < 128 := h c (List.mem_cons_self c rest)
    have hr := ih (fun x hx => h x (List.mem_cons_of_mem c hx))
    simp only [utf8Encode, List.map_cons, List.flatten_cons] at *
    rw [utf8EncodeChar, if_pos hc]
    rw [hr]
    rfl

theorem utf8DecodeAux_ascii :
    ∀ f t, t.length < f → (∀ c ∈ t, c < 128) → utf8DecodeAux f t = some t := by
  intro f
  induction f with
  | zero => intro t ht; omega
  | succ f ih =>
    intro t ht h
    cases t with
    | nil => rfl
    | cons c rest =>
      have hc : c < 128 := h c (List.mem_cons_self c rest)
      have hr := ih rest (by simpa using Nat.lt_of_succ_lt_succ ht)
        (fun x hx => h x (List.mem_cons_of_mem c hx))
      simp only [utf8DecodeAux, utf8Need, if_pos hc, List.take_zero, List.drop_zero,
        List.length_nil, utf8ContOk, List.all_nil, List.head?_nil, Bool.and_true, utf8Combine,
        List.foldl_nil, utf8First, hr]
      simp [hc]

theorem utf8Decode_ascii (t : List Nat) (h : ∀ c ∈ t, c < 128) : utf8Decode t = some t := by
  unfold utf8Decode
  exact utf8DecodeAux_ascii (t.length + 1) t (by omega) h

theorem decodeString_encode (s : FormatSpec) (t : List Nat)
    (hlen : t.length ≤ 127) (hascii : ∀ c ∈ t, c < 128) :
    decodeStringArg s (encodeStrArg t) = ⟨s, some (.text t), t.length :: t, .success⟩ := by
  have he : encodeStrArg t = t.length :: t := by
    unfold encodeStrArg
    rw [utf8Encode_ascii t hascii]
    exact if_pos hlen
  rw [he]
  unfold decodeStringArg
  have h256 : t.length % 256 = t.length := Nat.mod_eq_of_lt (by omega)
  have h128 : t.length % 128 = t.length := Nat.mod_eq_of_lt (by omega)
  have htr : ¬ (128 ≤ t.length) := by omega
  simp only [h256, h128, List.take_length, utf8Decode_ascii t hascii, List.take_succ_cons]
  simp [htr]

theorem decodeFloat_encode (s : FormatSpec) (bits : Nat) (h : bits < 2 ^ 64) :
    decodeFloatArg s (encodeDoubleArg bits) =
      ⟨s, some (.double bits), encodeDoubleArg bits, .success⟩ := by
  have hfold : (encodeDoubleArg bits).foldr (fun x a => x % 256 + 256 * a) 0 = bits := by
    simp only [encodeDoubleArg, List.foldr_cons, List.foldr_nil]
    omega
  unfold decodeFloatArg
  rw [if_neg (by simp [encodeDoubleArg]),
    List.take_of_length_le (by simp [encodeDoubleArg]), hfold]

/-! ## Pipeline lemmas -/

theorem isOk_iff (a : DecodedArg) : a.isOk = true ↔ a.status = .success := by
  cases a with
  | mk s v r st => cases st <;> simp [DecodedArg.isOk]

theorem decode_status (s : FormatSpec) (buf : List Nat) :
    (s.decode buf).status = .success ∨ (s.decode buf).status = .error := by
  unfold FormatSpec.decode
  split_ifs
  · exact Or.inr rfl
  · exact Or.inl rfl
  · cases h : lebDecode s.sizeBits buf <;> simp [decodeSignedVarint, h]
  · unfold decodeCharArg
    cases h : lebDecode s.sizeBits buf
    · dsimp only
      split_ifs <;> simp
    · simp
  · cases h : lebDecode s.sizeBits buf <;> simp [decodeUnsignedVarint, h]
  · unfold decodeStringArg
    cases buf with
    | nil => simp
    | cons szst rest =>
      dsimp only
      cases h : utf8Decode (List.take (szst % 128) rest)
      · simp
      · dsimp only
        split_ifs <;> simp
  · unfold decodeFloatArg
    split_ifs <;> simp

theorem formatMsg_single (fmt buf : List Nat) (e : Bool) (s : FormatSpec)
    (h : tokenize fmt = [.dir s]) :
    formatMsg fmt buf e =
      ⟨(s.decode buf).render e, [s.decode buf], buf.drop (s.decode buf).raw.length⟩ := by
  unfold formatMsg
  rw [h]
  simp [dirSpecs, decodeArgs, renderTokens]

theorem decodeArgs_true_skipped (specs : List FormatSpec) :
    ∀ buf, ∀ a ∈ (decodeArgs specs buf true).1, a.status = .skipped := by
  induction specs with
  | nil => intro buf a ha; simp [decodeArgs] at ha
  | cons s rest ih =>
    intro buf a ha
    simp only [decodeArgs, Bool.true_or, List.mem_cons] at ha
    rcases ha with h | h
    · subst h; rfl
    · exact ih _ a h

theorem decodeArgs_cons (s : FormatSpec) (rest : List FormatSpec) (buf : List Nat)
    (fatal : Bool) :
    decodeArgs (s :: rest) buf fatal =
      ((if fatal then { s.decode buf with status := .skipped } else s.decode buf) ::
          (decodeArgs rest (buf.drop (s.decode buf).raw.length)
            (fatal || !(s.decode buf).isOk)).1,
        (decodeArgs rest (buf.drop (s.decode buf).raw.length)
          (fatal || !(s.decode buf).isOk)).2) := rfl

theorem decodeArgs_skip_after (specs : List FormatSpec) :
    ∀ (buf : List Nat) (fatal : Bool) (i j : Nat) (ai aj : DecodedArg), i < j →
      (decodeArgs specs buf fatal).1[i]? = some ai →
      (decodeArgs specs buf fatal).1[j]? = some aj →
      ai.status = .error → aj.status = .skipped := by
  induction specs with
  | nil =>
    intro buf fatal i j ai aj hij hi hj
    simp [decodeArgs] at hi
  | cons s rest ih =>
    intro buf fatal i j ai aj hij hi hj herr
    rw [decodeArgs_cons] at hi hj
    match i, j with
    | 0, j + 1 =>
      rw [List.getElem?_cons_zero] at hi
      rw [List.getElem?_cons_succ] at hj
      cases fatal with
      | true =>
        rw [if_pos rfl] at hi
        have : ai.status = ArgStatus.skipped := by
          cases hi
          rfl
        rw [this] at herr
        cases herr
      | false =>
        rw [if_neg (by simp)] at hi
        cases hi
        have hok : (s.decode buf).isOk = false := by
          cases hst : (s.decode buf).status
          · rw [herr] at hst
            cases hst
          · simp [DecodedArg.isOk, hst]
          · simp [DecodedArg.isOk, hst]
        rw [hok] at hj
        simp only [Bool.false_or, Bool.not_false] at hj
        exact decodeArgs_true_skipped rest _ aj (List.getElem?_mem hj)
    | i + 1, j + 1 =>
      rw [List.getElem?_cons_succ] at hi hj
      exact ih _ _ i j ai aj (by omega) hi hj herr

/-! ## Digit-string lemmas -/

theorem natToDigitsAux_length (bse : Nat) (u : Bool) (hb : 2 ≤ bse) :
    ∀ n k f acc, n < f → n < bse ^ k →
      (natToDigitsAux bse u f n acc).length ≤ k + acc.length := by
  intro n
  induction n using Nat.strong_induction_on with
  | _ n ih =>
    intro k f acc hf hk
    match f, n with
    | f + 1, 0 => simp [natToDigitsAux]
    | f + 1, n + 1 =>
      rw [show natToDigitsAux bse u (f + 1) (n + 1) acc =
          natToDigitsAux bse u f ((n + 1) / bse) (hexDigitChar u ((n + 1) % bse) :: acc)
        from rfl]
      have hk1 : 1 ≤ k := by
        by_contra hk0
        have : k = 0 := by omega
        subst this
        simp at hk
      have hdl : (n + 1) / bse < n + 1 := Nat.div_lt_self (by omega) (by omega)
      have hdk : (n + 1) / bse < bse ^ (k - 1) := by
        rw [Nat.div_lt_iff_lt_mul (by omega : 0 < bse)]
        calc n + 1 < bse ^ k := hk
          _ = bse ^ (k - 1) * bse := by
            rw [← pow_succ]
            congr 1
            omega
      have h2 := ih ((n + 1) / bse) hdl (k - 1) f (hexDigitChar u ((n + 1) % bse) :: acc)
        (by omega) hdk
      simp only [List.length_cons] at h2
      omega

theorem natToDigits_length_le (bse : Nat) (u : Bool) (k n : Nat)
    (hb : 2 ≤ bse) (hk : 1 ≤ k) (h : n < bse ^ k) : (natToDigits bse u n).length ≤ k := by
  unfold natToDigits
  split_ifs
  · simpa using hk
  · simpa using natToDigitsAux_length bse u hb n k (n + 1) [] (by omega) h

theorem natToDigitsAux_upperHex :
    ∀ f n acc, (∀ c ∈ acc, (48 ≤ c ∧ c ≤ 57) ∨ (65 ≤ c ∧ c ≤ 70)) →
      ∀ c ∈ natToDigitsAux 16 true f n acc, (48 ≤ c ∧ c ≤ 57) ∨ (65 ≤ c ∧ c ≤ 70) := by
  intro f
  induction f with
  | zero => intro n acc hacc; simpa [natToDigitsAux] using hacc
  | succ f ih =>
    intro n acc hacc
    match n with
    | 0 => simpa [natToDigitsAux] using hacc
    | n + 1 =>
      rw [show natToDigitsAux 16 true (f + 1) (n + 1) acc =
          natToDigitsAux 16 true f ((n + 1) / 16) (hexDigitChar true ((n + 1) % 16) :: acc)
        from rfl]
      apply ih
      intro c hc
      rcases List.mem_cons.mp hc with h | h
      · subst h
        unfold hexDigitChar
        have hd : (n + 1) % 16 < 16 := Nat.mod_lt _ (by omega)
        by_cases hlt : (n + 1) % 16 < 10
        · rw [if_pos hlt]
          omega
        · rw [if_neg hlt, if_pos rfl]
          omega
      · exact hacc c h

theorem natToDigits_upperHex (n : Nat) :
    ∀ c ∈ natToDigits 16 true n, (48 ≤ c ∧ c ≤ 57) ∨ (65 ≤ c ∧ c ≤ 70) := by
  unfold natToDigits
  split_ifs
  · intro c hc
    simp at hc
    omega
  · exact natToDigitsAux_upperHex (n + 1) n [] (by simp)

theorem padLeft_length (c w : Nat) (l : List Nat) (h : l.length ≤ w) :
    (padLeft c w l).length = w := by
  simp [padLeft]
  omega

theorem padLeft_mem (c w : Nat) (l : List Nat) :
    ∀ x ∈ padLeft c w l, x = c ∨ x ∈ l := by
  intro x hx
  rcases List.mem_append.mp hx with h | h
  · exact Or.inl (List.eq_of_mem_replicate h)
  · exact Or.inr h

/-! ## Decode dispatch lemmas -/

theorem sizeBits_cases (s : FormatSpec) : s.sizeBits = 32 ∨ s.sizeBits = 64 := by
  unfold FormatSpec.sizeBits
  cases s.lengthMod <;> simp

theorem lebFits_bits (b u : Nat) (hb : b = 32 ∨ b = 64) (hu : u < 2 ^ (b + 1)) :
    ∃ k, u < 2 ^ (7 * k) ∧ 7 * k ≤ b + 6 := by
  rcases hb with h | h <;> subst h
  · exact ⟨5, by norm_num at hu ⊢; omega, by omega⟩
  · exact ⟨10, by norm_num at hu ⊢; omega, by omega⟩

theorem decode_eq_signed (s : FormatSpec) (buf : List Nat) (h : s.err = false)
    (hc : s.conv = 100 ∨ s.conv = 105) : s.decode buf = decodeSignedVarint s buf := by
  unfold FormatSpec.decode
  rcases hc with h1 | h1 <;> simp [h, h1]

theorem decode_eq_char (s : FormatSpec) (buf : List Nat) (h : s.err = false)
    (hc : s.conv = 99) : s.decode buf = decodeCharArg s buf := by
  unfold FormatSpec.decode
  simp [h, hc]

theorem decode_eq_unsigned (s : FormatSpec) (buf : List Nat) (h : s.err = false)
    (hc : s.conv = 117 ∨ s.conv = 111 ∨ s.conv = 120 ∨ s.conv = 88 ∨ s.conv = 112) :
    s.decode buf = decodeUnsignedVarint s buf := by
  unfold FormatSpec.decode
  rcases hc with h1 | h1 | h1 | h1 | h1 <;> simp [h, h1]

theorem decode_eq_string (s : FormatSpec) (buf : List Nat) (h : s.err = false)
    (hc : s.conv = 115) : s.decode buf = decodeStringArg s buf := by
  unfold FormatSpec.decode
  simp [h, hc]

theorem decode_eq_float (s : FormatSpec) (buf : List Nat) (h : s.err = false)
    (hc : s.conv = 102 ∨ s.conv = 70 ∨ s.conv = 101 ∨ s.conv = 69 ∨ s.conv = 103 ∨
      s.conv = 71) : s.decode buf = decodeFloatArg s buf := by
  unfold FormatSpec.decode
  rcases hc with h1 | h1 | h1 | h1 | h1 | h1 <;> simp [h, h1]

theorem encodeStr_ascii (t : List Nat) (hlen : t.length ≤ 127)
    (hascii : ∀ c ∈ t, c < 128) : encodeStrArg t = t.length :: t := by
  unfold encodeStrArg
  rw [utf8Encode_ascii t hascii]
  exact if_pos hlen

/-! ## The claims -/

/-- Round-trip core: decoding an encoded in-range value under a single
legal directive succeeds, recovers the value, and renders it exactly as
direct formatting would. -/
theorem roundtrip_single (fmt : List Nat) (s : FormatSpec) (v : ArgValue)
    (htok : tokenize fmt = [.dir s]) (hleg : legalPair s v = true) :
    (formatMsg fmt (encodeArg v) true).ok = true ∧
      (formatMsg fmt (encodeArg v) true).remaining = [] ∧
      (formatMsg fmt (encodeArg v) true).value = renderDirect s v ∧
      (formatMsg fmt (encodeArg v) true).args =
        [⟨s, some (decodedForm v), encodeArg v, .success⟩] := by
  have hbits1 : s.sizeBits - 1 + 1 = s.sizeBits := by
    rcases sizeBits_cases s with h | h <;> omega
  have hdec : s.decode (encodeArg v) = ⟨s, some (decodedForm v), encodeArg v, .success⟩ := by
    unfold legalPair at hleg
    cases v with
    | int n =>
      simp only [Bool.and_eq_true, Bool.or_eq_true, Bool.not_eq_true', beq_iff_eq,
        decide_eq_true_eq, List.contains_eq_any_beq, List.any_cons, List.any_nil,
        Bool.or_false] at hleg
      obtain ⟨herr, hrest⟩ := hleg
      simp only [encodeArg, encodeIntArg, decodedForm]
      rcases hrest with (⟨⟨hconv, hlow⟩, hhigh⟩ | ⟨⟨hconv, h0⟩, hhigh⟩) | ⟨⟨hconv, h0⟩, hhigh⟩
      · rw [decode_eq_signed s _ herr hconv]
        have hz : zigzag n < 2 ^ (s.sizeBits - 1 + 1) :=
          zigzag_lt_signed n (s.sizeBits - 1) hlow hhigh
        rw [hbits1] at hz
        have hz2 : zigzag n < 2 ^ (s.sizeBits + 1) :=
          lt_of_lt_of_le hz (Nat.pow_le_pow_right (by omega) (by omega))
        obtain ⟨k, hk1, hk2⟩ := lebFits_bits s.sizeBits (zigzag n) (sizeBits_cases s) hz2
        exact decodeSigned_encode s n k hk1 hk2
      · rw [decode_eq_unsigned s _ herr hconv]
        have hz2 : zigzag n < 2 ^ (s.sizeBits + 1) :=
          zigzag_lt_unsigned n s.sizeBits h0 hhigh
        obtain ⟨k, hk1, hk2⟩ := lebFits_bits s.sizeBits (zigzag n) (sizeBits_cases s) hz2
        exact decodeUnsigned_encode s n k h0 hhigh hk1 hk2
      · rw [decode_eq_char s _ herr hconv]
        have hlt : n < (2 : Int) ^ s.sizeBits := by
          rcases sizeBits_cases s with h | h <;> rw [h] <;> norm_num <;> omega
        have hz2 : zigzag n < 2 ^ (s.sizeBits + 1) :=
          zigzag_lt_unsigned n s.sizeBits h0 hlt
        obtain ⟨k, hk1, hk2⟩ := lebFits_bits s.sizeBits (zigzag n) (sizeBits_cases s) hz2
        exact decodeChar_encode s n k h0 hhigh hk1 hk2
    | str t =>
      simp only [Bool.and_eq_true, Bool.not_eq_true', beq_iff_eq, decide_eq_true_eq,
        List.all_eq_true] at hleg
      obtain ⟨herr, ⟨hconv, hlen⟩, hascii⟩ := hleg
      have hascii2 : ∀ c ∈ t, c < 128 := fun c hc => by
        have := hascii c hc
        simpa using this
      simp only [encodeArg, decodedForm]
      rw [decode_eq_string s _ herr hconv]
      have hd := decodeString_encode s t hlen hascii2
      have he := encodeStr_ascii t hlen hascii2
      rw [he]
      rw [he] at hd
      exact hd
    | double bits =>
      simp only [Bool.and_eq_true, Bool.not_eq_true', beq_iff_eq, decide_eq_true_eq,
        List.contains_eq_any_beq, List.any_cons, List.any_nil, Bool.or_eq_true,
        Bool.or_false] at hleg
      obtain ⟨herr, hconv, hbits⟩ := hleg
      have hconv2 : s.conv = 102 ∨ s.conv = 70 ∨ s.conv = 101 ∨ s.conv = 69 ∨
          s.conv = 103 ∨ s.conv = 71 := by omega
      simp only [encodeArg, decodedForm]
      rw [decode_eq_float s _ herr hconv2]
      exact decodeFloat_encode s bits hbits
  rw [formatMsg_single fmt (encodeArg v) true s htok, hdec]
  refine ⟨?_, ?_, ?_, ?_⟩
  · simp [FormattedString.ok, DecodedArg.isOk, List.drop_length]
  · simp [List.drop_length]
  · simp [DecodedArg.render, renderDirect]
  · rfl

/-- C1: Round-trip.  For every format string consisting of one legal
directive and every in-range value of the matching type (signed and
unsigned integers at either size, chars, ASCII strings up to 127 bytes,
and binary64 bit patterns), decoding the bytes produced by the encoder
with that specifier succeeds — `ok()` is true and `remaining` is empty —
recovers exactly the encoded value, and renders exactly the text obtained
by formatting the value directly under that specifier: the encoder is the
exact inverse of the decoder for all in-range values. -/
theorem claim1_roundtrip (fmt : List Nat) (s : FormatSpec) (v : ArgValue)
    (htok : tokenize fmt = [.dir s]) (hleg : legalPair s v = true) :
    (formatMsg fmt (encodeArg v) true).ok = true ∧
      (formatMsg fmt (encodeArg v) true).remaining = [] ∧
      (formatMsg fmt (encodeArg v) true).value = renderDirect s v ∧
      (formatMsg fmt (encodeArg v) true).args =
        [⟨s, some (decodedForm v), encodeArg v, .success⟩] :=
  roundtrip_single fmt s v htok hleg

/-- Witness for C1: the concrete pair `("%d", -10)` — the scenario of the
`test_signed_integer_i` test. -/
theorem claim1_roundtrip_witness :
    tokenize (strCodes "%d") = [.dir (parseSpec [100]).1] ∧
      legalPair (parseSpec [100]).1 (.int (-10)) = true ∧
      (formatMsg (strCodes "%d") (encodeArg (.int (-10))) true).ok = true ∧
      (formatMsg (strCodes "%d") (encodeArg (.int (-10))) true).value =
        renderDirect (parseSpec [100]).1 (.int (-10)) ∧
      (formatMsg (strCodes "%d") (encodeArg (.int (-10))) true).value = strCodes "-10" := by
  refine ⟨by decide, by decide, ?_, ?_, by decide⟩
  · exact (claim1_roundtrip (strCodes "%d") (parseSpec [100]).1 (.int (-10))
      (by decide) (by decide)).1
  · exact (claim1_roundtrip (strCodes "%d") (parseSpec [100]).1 (.int (-10))
      (by decide) (by decide)).2.2.1

/-- C2: `ok()` holds exactly when every directive decoded successfully and
no bytes remain.  In particular a message of just `%n` on an empty buffer
is never ok, and a decode whose directives all succeed but which leaves
unconsumed bytes is not ok. -/
theorem claim2_ok_iff (fmt buf : List Nat) (e : Bool) :
    ((formatMsg fmt buf e).ok = true ↔
      (∀ a ∈ (formatMsg fmt buf e).args, a.status = ArgStatus.success) ∧
        (formatMsg fmt buf e).remaining = []) ∧
      (formatMsg (strCodes "%n") [] true).ok = false ∧
      ((formatMsg (strCodes "%d") [0, 0] true).args.all (fun a => a.isOk) = true ∧
        (formatMsg (strCodes "%d") [0, 0] true).remaining ≠ [] ∧
        (formatMsg (strCodes "%d") [0, 0] true).ok = false) := by
  refine ⟨?_, by decide, by decide, by decide, by decide⟩
  unfold FormattedString.ok
  rw [Bool.and_eq_true, List.all_eq_true, List.isEmpty_iff]
  constructor
  · rintro ⟨h1, h2⟩
    exact ⟨fun a ha => (isOk_iff a).mp (h1 a ha), h2⟩
  · rintro ⟨h1, h2⟩
    exact ⟨fun a ha => (isOk_iff a).mpr (h1 a ha), h2⟩

/-- C3 (amended): monotonic skip propagation.  For every format string and
buffer, once directive `i` has status `Error` every directive `j > i` has
status `Skipped` — never `Error` or `Success` — so at most one directive
is ever `Error`.  (The original claim additionally said skipped
directives consume no bytes; the decoder instead keeps tentatively
decoding them for diagnostics — their placeholders can carry values — and
advances the cursor past their bytes, as the counterexample shows.)  The
anchor is the `test_unicode_decode_errors` scenario, whose skipped
directives display the values -1 and 1 decoded after the failure. -/
theorem claim3_skip_propagation (fmt buf : List Nat) (e : Bool) (i j : Nat)
    (ai aj : DecodedArg)
    (hi : (formatMsg fmt buf e).args[i]? = some ai)
    (hj : (formatMsg fmt buf e).args[j]? = some aj) :
    (i < j → ai.status = .error → aj.status = .skipped) ∧
      (i ≠ j → ai.status = .error → aj.status ≠ .error) ∧
      decodeMsg (strCodes "%sXY%+ldxy%u") [131, 78, 128, 33, 1, 2] true =
        strCodes "<[%s ERROR ('N\\x80!')]>XY<[%+ld SKIPPED (-1)]>xy<[%u SKIPPED (1)]>" := by
  have hargs : (formatMsg fmt buf e).args =
      (decodeArgs (dirSpecs (tokenize fmt)) buf false).1 := rfl
  rw [hargs] at hi hj
  refine ⟨?_, ?_, by decide⟩
  · intro hij herr
    exact decodeArgs_skip_after _ _ _ i j ai aj hij hi hj herr
  · intro hij herr hjerr
    rcases Nat.lt_or_ge i j with h | h
    · have hsk := decodeArgs_skip_after _ _ _ i j ai aj h hi hj herr
      rw [hsk] at hjerr
      cases hjerr
    · have hji : j < i := by omega
      have hsk := decodeArgs_skip_after _ _ _ j i aj ai hji hj hi hjerr
      rw [hsk] at herr
      cases herr

/-- Counterexample for C3 as stated: in the `test_unicode_decode_errors`
scenario the second and third directives are `Skipped`, yet each consumed
one byte of the buffer (their raw data is nonempty), contradicting
"marked Skipped without attempting to consume bytes". -/
theorem claim3_skip_counterexample :
    ((formatMsg (strCodes "%sXY%+ldxy%u") [131, 78, 128, 33, 1, 2] true).args.map
        fun a => (a.status, a.raw)) =
      [(ArgStatus.error, [131, 78, 128, 33]), (ArgStatus.skipped, [1]),
        (ArgStatus.skipped, [2])] ∧
      ¬ ([1] : List Nat) = [] ∧
      (formatMsg (strCodes "%sXY%+ldxy%u") [131, 78, 128, 33, 1, 2] true).remaining = [] := by
  decide

/-- Witness for C3 at the anchor scenario, directives 0 and 1. -/
theorem claim3_skip_propagation_witness :
    (0 : Nat) < 1 ∧
      (((parseSpec (strCodes "sXY%+ldxy%u")).1.decode [131, 78, 128, 33, 1, 2]).status =
        ArgStatus.error) ∧
      ({ (parseSpec (strCodes "+ldxy%u")).1.decode [1, 2] with
          status := ArgStatus.skipped } : DecodedArg).status = ArgStatus.skipped := by
  refine ⟨by decide, by decide, ?_⟩
  exact (claim3_skip_propagation (strCodes "%sXY%+ldxy%u") [131, 78, 128, 33, 1, 2] true 0 1
    ((parseSpec (strCodes "sXY%+ldxy%u")).1.decode [131, 78, 128, 33, 1, 2])
    { (parseSpec (strCodes "+ldxy%u")).1.decode [1, 2] with status := ArgStatus.skipped }
    (by decide) (by decide)).1 (by decide) (by decide)


/-- C4: score ordering.  Comparing the scores of any two decode results
(with no recency supplied): a result with `ok()` true strictly outranks
any result with `ok()` false; among non-ok results, one with empty
`remaining` strictly outranks one with leftover bytes; and among results
equal on both of those, one with fewer non-`Success` directives strictly
outranks one with more. -/
theorem claim4_score_ordering (f1 b1 f2 b2 : List Nat) (e1 e2 : Bool) :
    ((formatMsg f1 b1 e1).ok = true → (formatMsg f2 b2 e2).ok = false →
      scoreLt ((formatMsg f2 b2 e2).score none) ((formatMsg f1 b1 e1).score none) = true) ∧
      ((formatMsg f1 b1 e1).ok = false → (formatMsg f2 b2 e2).ok = false →
        (formatMsg f1 b1 e1).remaining = [] → (formatMsg f2 b2 e2).remaining ≠ [] →
        scoreLt ((formatMsg f2 b2 e2).score none) ((formatMsg f1 b1 e1).score none) = true) ∧
      ((formatMsg f1 b1 e1).ok = (formatMsg f2 b2 e2).ok →
        (formatMsg f1 b1 e1).remaining.isEmpty = (formatMsg f2 b2 e2).remaining.isEmpty →
        ((formatMsg f1 b1 e1).args.filter fun a => !a.isOk).length <
          ((formatMsg f2 b2 e2).args.filter fun a => !a.isOk).length →
        scoreLt ((formatMsg f2 b2 e2).score none) ((formatMsg f1 b1 e1).score none) = true) := by
  refine ⟨?_, ?_, ?_⟩
  · intro h1 h2
    simp [FormattedString.score, scoreLt, h1, h2]
  · intro h1 h2 h3 h4
    have h3e : (formatMsg f1 b1 e1).remaining.isEmpty = true := List.isEmpty_iff.mpr h3
    have h4e : (formatMsg f2 b2 e2).remaining.isEmpty = false := by
      simpa [List.isEmpty_iff] using h4
    simp [FormattedString.score, scoreLt, h1, h2, h3e, h4e]
  · intro h1 h2 h3
    simp [FormattedString.score, scoreLt, h1, h2]
    omega




/-- Witness for C4 at the `test_compare_score` scenarios:
`%d%d%d` with 3, 2, 1 and 4 encoded arguments. -/
theorem claim4_score_ordering_witness :
    scoreLt ((formatMsg (strCodes "%d%d%d") (encodeArgsList [.int 0, .int 0]) true).score none)
        ((formatMsg (strCodes "%d%d%d")
          (encodeArgsList [.int 0, .int 0, .int 0]) true).score none) = true ∧
      scoreLt ((formatMsg (strCodes "%d%d%d")
          (encodeArgsList [.int 0, .int 0, .int 0, .int 1]) true).score none)
        ((formatMsg (strCodes "%d%d%d") (encodeArgsList [.int 0]) true).score none) = true ∧
      scoreLt ((formatMsg (strCodes "%d%d%d") (encodeArgsList [.int 0]) true).score none)
        ((formatMsg (strCodes "%d%d%d") (encodeArgsList [.int 0, .int 0]) true).score none) =
        true := by
  refine ⟨?_, ?_, ?_⟩
  · exact (claim4_score_ordering (strCodes "%d%d%d") (encodeArgsList [.int 0, .int 0, .int 0])
      (strCodes "%d%d%d") (encodeArgsList [.int 0, .int 0]) true true).1 (by decide) (by decide)
  · exact (claim4_score_ordering (strCodes "%d%d%d") (encodeArgsList [.int 0])
      (strCodes "%d%d%d") (encodeArgsList [.int 0, .int 0, .int 0, .int 1]) true true).2.1
      (by decide) (by decide) (by decide) (by decide)
  · exact (claim4_score_ordering (strCodes "%d%d%d") (encodeArgsList [.int 0, .int 0])
      (strCodes "%d%d%d") (encodeArgsList [.int 0]) true true).2.2
      (by decide) (by decide) (by decide)

/-- C5: the `"%p%d%d"` / `0x02 0x80` scenario.  The first directive
succeeds and renders pointer `0x00000001`, the second is `Error`
(incomplete varint), the third `Skipped`; `score()` with no recency is
exactly `(false, true, -2, 3, datetimeMax)`; a supplied recency replaces
only the last field, so `score()` strictly exceeds `score(t)` for any
`0 < t < datetimeMax`, which strictly exceeds `score(min)`. -/
theorem claim5_pointer_missing_args (t : Nat) (h0 : 0 < t) (hmax : t < datetimeMax) :
    (formatMsg (strCodes "%p%d%d") [2, 128] true).value =
        strCodes "0x00000001<[%d ERROR]><[%d SKIPPED]>" ∧
      ((formatMsg (strCodes "%p%d%d") [2, 128] true).args.map fun a => a.status) =
        [ArgStatus.success, ArgStatus.error, ArgStatus.skipped] ∧
      (formatMsg (strCodes "%p%d%d") [2, 128] true).ok = false ∧
      (formatMsg (strCodes "%p%d%d") [2, 128] true).score none =
        (false, true, -2, 3, datetimeMax) ∧
      (formatMsg (strCodes "%p%d%d") [2, 128] true).score (some t) =
        (false, true, -2, 3, t) ∧
      scoreLt ((formatMsg (strCodes "%p%d%d") [2, 128] true).score (some t))
        ((formatMsg (strCodes "%p%d%d") [2, 128] true).score none) = true ∧
      scoreLt ((formatMsg (strCodes "%p%d%d") [2, 128] true).score (some 0))
        ((formatMsg (strCodes "%p%d%d") [2, 128] true).score (some t)) = true := by
  have hok : (formatMsg (strCodes "%p%d%d") [2, 128] true).ok = false := by decide
  have hrem : (formatMsg (strCodes "%p%d%d") [2, 128] true).remaining.isEmpty = true := by
    decide
  have hfail : ((formatMsg (strCodes "%p%d%d") [2, 128] true).args.filter
      fun a => !a.isOk).length = 2 := by decide
  have hlen : (formatMsg (strCodes "%p%d%d") [2, 128] true).args.length = 3 := by decide
  have hsome : ∀ r : Option Nat, (formatMsg (strCodes "%p%d%d") [2, 128] true).score r =
      (false, true, -2, 3, r.getD datetimeMax) := by
    intro r
    unfold FormattedString.score
    rw [hok, hrem, hfail, hlen]
    rfl
  refine ⟨by decide, by decide, hok, ?_, ?_, ?_, ?_⟩
  · rw [hsome]
    rfl
  · rw [hsome]
    rfl
  · rw [hsome, hsome]
    simp [scoreLt, hmax]
  · rw [hsome, hsome]
    simp [scoreLt, h0]

/-- Witness for C5 at the recency timestamp 12345. -/
theorem claim5_pointer_missing_args_witness :
    (formatMsg (strCodes "%p%d%d") [2, 128] true).score none =
        (false, true, -2, 3, datetimeMax) ∧
      scoreLt ((formatMsg (strCodes "%p%d%d") [2, 128] true).score (some 12345))
        ((formatMsg (strCodes "%p%d%d") [2, 128] true).score none) = true ∧
      scoreLt ((formatMsg (strCodes "%p%d%d") [2, 128] true).score (some 0))
        ((formatMsg (strCodes "%p%d%d") [2, 128] true).score (some 12345)) = true := by
  refine ⟨?_, ?_, ?_⟩
  · exact (claim5_pointer_missing_args 12345 (by decide) (by decide)).2.2.2.1
  · exact (claim5_pointer_missing_args 12345 (by decide) (by decide)).2.2.2.2.2.1
  · exact (claim5_pointer_missing_args 12345 (by decide) (by decide)).2.2.2.2.2.2


/-- Width-free field assembly is just `head ++ body`. -/
theorem assembleField_nowidth (s : FormatSpec) (za : Bool) (head body : List Nat)
    (hw : s.width = none) (hm : s.flagMinus = false) :
    assembleField s za head body = head ++ body := by
  have hp0 : ∀ c l, padLeft c 0 l = l := by
    intro c l
    simp [padLeft]
  have hp0r : ∀ c l, padRight c 0 l = l := by
    intro c l
    simp [padRight]
  unfold assembleField
  rw [hw, hm]
  split_ifs <;> simp [hp0, hp0r]

/-- Successful pointer rendering: sign characters, then `0x`, then exactly
8 zero-padded uppercase hex digits. -/
theorem renderSuccess_pointer (s : FormatSpec) (v : Int) (hconv : s.conv = 112)
    (hm : s.flagMinus = false) (_hz : s.flagZero = false) (hw : s.width = none) (h0 : 0 ≤ v) :
    renderSuccess s (some (.int v)) =
      signChars s false ++ ([48, 120] ++ padLeft 48 8 (natToDigits 16 true v.natAbs)) := by
  have hneg : decide (v < 0) = false := decide_eq_false (by omega)
  have hrp : renderSuccess s (some (.int v)) = renderPointerArg s v := by
    unfold renderSuccess
    rw [hconv]
    rfl
  rw [hrp]
  unfold renderPointerArg
  rw [hneg, assembleField_nowidth _ _ _ _ hw hm]
  simp

/-- C6 (amended): every integer conversion reads the zig-zag varint wire
format.  `%u` and `%p` run the identical unsigned decode, so they agree
on value, consumed bytes and status for every buffer; the single byte
0x02 decodes to 1 (not 2) for both; and the signed conversions round-trip
through the zig-zag mapping (the encoder emits `leb128 (zigzag n)`). -/
theorem claim6_zigzag_wire (buf : List Nat) (n : Int)
    (hlow : -(2 ^ 31 : Int) ≤ n) (hhigh : n < 2 ^ 31) :
    (((parseSpec [117]).1.decode buf).value = ((parseSpec [112]).1.decode buf).value ∧
      ((parseSpec [117]).1.decode buf).raw = ((parseSpec [112]).1.decode buf).raw ∧
      ((parseSpec [117]).1.decode buf).status = ((parseSpec [112]).1.decode buf).status) ∧
      ((parseSpec [117]).1.decode [2]).value = some (.int 1) ∧
      ((parseSpec [112]).1.decode [2]).value = some (.int 1) ∧
      ((parseSpec [100]).1.decode (encodeIntArg n)).value = some (.int n) ∧
      encodeIntArg n = leb128 (zigzag n) := by
  refine ⟨?_, by decide, by decide, ?_, rfl⟩
  · rw [decode_eq_unsigned _ _ (by decide) (Or.inl (by decide)),
      decode_eq_unsigned _ _ (by decide) (Or.inr (Or.inr (Or.inr (Or.inr (by decide)))))]
    unfold decodeUnsignedVarint
    rw [show (parseSpec [117]).1.sizeBits = 32 from rfl,
      show (parseSpec [112]).1.sizeBits = 32 from rfl]
    cases h : lebDecode 32 buf <;> simp
  · rw [decode_eq_signed _ _ (by decide) (Or.inl (by decide))]
    rw [show encodeIntArg n = leb128 (zigzag n) from rfl]
    have h5 : zigzag n < 2 ^ (7 * 5) := by
      have := zigzag_lt_signed n 31 hlow hhigh
      norm_num at this ⊢
      omega
    rw [decodeSigned_encode (parseSpec [100]).1 n 5 h5 (by decide)]

/-- Witness for C6 at `n = -5` and the buffer 0x14 (the encoding of 10). -/
theorem claim6_zigzag_wire_witness :
    ((parseSpec [100]).1.decode (encodeIntArg (-5))).value = some (.int (-5)) ∧
      ((parseSpec [117]).1.decode [20]).value = ((parseSpec [112]).1.decode [20]).value := by
  refine ⟨?_, ?_⟩
  · exact (claim6_zigzag_wire [] (-5) (by decide) (by decide)).2.2.2.1
  · exact (claim6_zigzag_wire [20] (-5) (by decide) (by decide)).1.1

/-- Counterexample for C6 as stated: the byte 0x02 decodes to 1 for both
`%u` and `%p` (the zig-zag mapping is applied), not to 2 as the plain
unsigned varint reading would give. -/
theorem claim6_plain_varint_counterexample :
    ((parseSpec [117]).1.decode [2]).value = some (DecodedVal.int 1) ∧
      ((parseSpec [112]).1.decode [2]).value = some (DecodedVal.int 1) ∧
      ¬ ((parseSpec [117]).1.decode [2]).value = some (DecodedVal.int 2) ∧
      ¬ ((parseSpec [112]).1.decode [2]).value = some (DecodedVal.int 2) := by
  decide

/-- C7 (amended): `%c` decodes a zig-zag varint exactly like `%d` (same
bytes consumed on every buffer) and renders the decoded code point; for
format `"Why, %c"` with buffer 0x01 the varint decodes to -1, which is
not a valid code point, so the result is `"Why, "` followed by the error
placeholder carrying -1 and `ok()` is false. -/
theorem claim7_char_varint (buf : List Nat) (n : Int) (h0 : 0 ≤ n) (hle : n ≤ 0x10FFFF) :
    ((parseSpec [99]).1.decode buf).raw = ((parseSpec [100]).1.decode buf).raw ∧
      (parseSpec [99]).1.decode (encodeIntArg n) =
        ⟨(parseSpec [99]).1, some (.int n), encodeIntArg n, .success⟩ ∧
      renderSuccess (parseSpec [99]).1 (some (.int n)) = [n.toNat] ∧
      decodeMsg (strCodes "Why, %c") [1] true = strCodes "Why, <[%c ERROR (-1)]>" ∧
      (formatMsg (strCodes "Why, %c") [1] true).ok = false := by
  refine ⟨?_, ?_, ?_, by decide, by decide⟩
  · rw [decode_eq_char _ _ (by decide) (by decide),
      decode_eq_signed _ _ (by decide) (Or.inl (by decide))]
    unfold decodeCharArg decodeSignedVarint
    rw [show (parseSpec [99]).1.sizeBits = 32 from rfl,
      show (parseSpec [100]).1.sizeBits = 32 from rfl]
    cases h : lebDecode 32 buf
    · dsimp only
      split_ifs <;> rfl
    · rfl
  · rw [decode_eq_char _ _ (by decide) (by decide)]
    rw [show encodeIntArg n = leb128 (zigzag n) from rfl]
    have hlt : n < (2 : Int) ^ 32 := by
      norm_num
      omega
    have h5 : zigzag n < 2 ^ (7 * 5) := by
      have := zigzag_lt_unsigned n 32 h0 hlt
      norm_num at this ⊢
      omega
    rw [decodeChar_encode (parseSpec [99]).1 n 5 h0 hle h5 (by decide)]
  · rfl

/-- Witness for C7 at `n = 99` (the letter c). -/
theorem claim7_char_varint_witness :
    (parseSpec [99]).1.decode (encodeIntArg 99) =
        ⟨(parseSpec [99]).1, some (.int 99), encodeIntArg 99, .success⟩ ∧
      renderSuccess (parseSpec [99]).1 (some (.int 99)) = strCodes "c" := by
  refine ⟨?_, ?_⟩
  · exact (claim7_char_varint [] 99 (by decide) (by decide)).2.1
  · exact (claim7_char_varint [] 99 (by decide) (by decide)).2.2.1

/-- Counterexample for C7 as stated: `%c` on the 2-byte buffer
`0xC6 0x01` (the encoding of the letter c) consumes 2 bytes, not exactly
1, and renders the varint-decoded code point 99, not byte 0xC6. -/
theorem claim7_one_byte_counterexample :
    ((parseSpec [99]).1.decode [198, 1]).raw.length = 2 ∧
      ((parseSpec [99]).1.decode [198, 1]).status = ArgStatus.success ∧
      ((parseSpec [99]).1.decode [198, 1]).value = some (DecodedVal.int 99) ∧
      ¬ (2 : Nat) = 1 := by
  decide


/-- C8 (amended): every successfully decoded `%p` value lies in the
32-bit range and renders as the two characters `0x` followed by exactly 8
zero-padded hexadecimal digits drawn from `0-9` and uppercase `A-F`
(uppercase, not lowercase as the claim stated); the `#` and `0` flags are
illegal for pointer. -/
theorem claim8_pointer_uppercase (buf : List Nat) (v : Int)
    (hval : ((parseSpec [112]).1.decode buf).value = some (.int v)) :
    0 ≤ v ∧ v < 2 ^ 32 ∧
      renderSuccess (parseSpec [112]).1 (some (.int v)) =
        [48, 120] ++ padLeft 48 8 (natToDigits 16 true v.natAbs) ∧
      (padLeft 48 8 (natToDigits 16 true v.natAbs)).length = 8 ∧
      (∀ c ∈ padLeft 48 8 (natToDigits 16 true v.natAbs),
        (48 ≤ c ∧ c ≤ 57) ∨ (65 ≤ c ∧ c ≤ 70)) ∧
      (parseSpec [35, 112]).1.err = true ∧ (parseSpec [48, 112]).1.err = true := by
  have hrange : 0 ≤ v ∧ v < 2 ^ 32 := by
    rw [decode_eq_unsigned _ _ (by decide)
      (Or.inr (Or.inr (Or.inr (Or.inr (by decide)))))] at hval
    unfold decodeUnsignedVarint at hval
    rw [show (parseSpec [112]).1.sizeBits = 32 from rfl] at hval
    cases h : lebDecode 32 buf
    case ok u c =>
      rw [h] at hval
      dsimp only at hval
      have hv : v = zigzagDecode u % (2 ^ 32 : Int) := by
        cases hval
        rfl
      subst hv
      constructor
      · exact Int.emod_nonneg _ (by norm_num)
      · exact Int.emod_lt_of_pos _ (by norm_num)
    case fail c =>
      rw [h] at hval
      cases hval
  obtain ⟨h0, hlt⟩ := hrange
  have hdig : v.natAbs < 16 ^ 8 := by
    norm_num
    omega
  refine ⟨h0, hlt, ?_, ?_, ?_, by decide, by decide⟩
  · have hr := renderSuccess_pointer (parseSpec [112]).1 v (by decide) (by decide) (by decide)
      (by decide) h0
    rw [hr]
    rfl
  · exact padLeft_length 48 8 _ (natToDigits_length_le 16 true 8 v.natAbs (by norm_num)
      (by norm_num) hdig)
  · intro c hc
    rcases padLeft_mem 48 8 _ c hc with h | h
    · omega
    · exact natToDigits_upperHex v.natAbs c h

/-- Witness for C8 at the `test_pointer` scenario (value 0xDEADBEEF). -/
theorem claim8_pointer_uppercase_witness :
    renderSuccess (parseSpec [112]).1 (some (.int 0xDEADBEEF)) =
        [48, 120] ++ padLeft 48 8 (natToDigits 16 true (0xDEADBEEF : Int).natAbs) ∧
      renderSuccess (parseSpec [112]).1 (some (.int 0xDEADBEEF)) = strCodes "0xDEADBEEF" := by
  refine ⟨?_, by decide⟩
  exact (claim8_pointer_uppercase (encodeArgsList [.int 0xDEADBEEF]) 0xDEADBEEF
    (by decide)).2.2.1

/-- Counterexample for C8 as stated: `%p` of 0xDEADBEEF renders
`0xDEADBEEF` with uppercase digits, not the lowercase `0xdeadbeef` the
claim requires. -/
theorem claim8_lowercase_counterexample :
    (formatMsg (strCodes "%p") (encodeArgsList [.int 0xDEADBEEF]) true).value =
        strCodes "0xDEADBEEF" ∧
      ¬ (formatMsg (strCodes "%p") (encodeArgsList [.int 0xDEADBEEF]) true).value =
        strCodes "0xdeadbeef" := by
  decide

/-- C9 (amended): a specifier whose flag combination is illegal for its
conversion (`#` with d/i/u/c/s/p, `0` with c/s/p, `+`/space with c/s) is
rejected at parse time; decoding it consumes zero argument bytes and
fails the whole message, and when it is the only directive,
`remaining_bytes` equals the original input buffer.  (When later
directives follow they are Skipped but may still consume bytes for
diagnostics, so the original "remaining equals the original buffer when
it is the first directive" fails — see the counterexample.) -/
theorem claim9_spec_rejection (s : FormatSpec) (fmt buf : List Nat) (e : Bool)
    (herr : s.err = true) (htok : tokenize fmt = [.dir s]) :
    s.decode buf = ⟨s, none, [], .error⟩ ∧
      (formatMsg fmt buf e).ok = false ∧
      (formatMsg fmt buf e).remaining = buf ∧
      ((parseSpec [35, 100]).1.err = true ∧ (parseSpec [35, 105]).1.err = true ∧
        (parseSpec [35, 117]).1.err = true ∧ (parseSpec [35, 99]).1.err = true ∧
        (parseSpec [35, 115]).1.err = true ∧ (parseSpec [35, 112]).1.err = true ∧
        (parseSpec [48, 99]).1.err = true ∧ (parseSpec [48, 115]).1.err = true ∧
        (parseSpec [48, 112]).1.err = true ∧ (parseSpec [43, 99]).1.err = true ∧
        (parseSpec [32, 99]).1.err = true ∧ (parseSpec [43, 115]).1.err = true ∧
        (parseSpec [32, 115]).1.err = true) := by
  have hdec : s.decode buf = ⟨s, none, [], .error⟩ := by
    unfold FormatSpec.decode
    simp [herr]
  refine ⟨hdec, ?_, ?_, by decide⟩
  · rw [formatMsg_single fmt buf e s htok, hdec]
    simp [FormattedString.ok, DecodedArg.isOk]
  · rw [formatMsg_single fmt buf e s htok, hdec]
    simp

/-- Witness for C9: `"%#p"` (hash flag on pointer) with a nonempty
buffer; the whole buffer remains. -/
theorem claim9_spec_rejection_witness :
    (parseSpec [35, 112]).1.err = true ∧
      (formatMsg (strCodes "%#p") [2, 3] true).ok = false ∧
      (formatMsg (strCodes "%#p") [2, 3] true).remaining = [2, 3] := by
  refine ⟨by decide, ?_, ?_⟩
  · exact (claim9_spec_rejection (parseSpec [35, 112]).1 (strCodes "%#p") [2, 3] true
      (by decide) (by decide)).2.1
  · exact (claim9_spec_rejection (parseSpec [35, 112]).1 (strCodes "%#p") [2, 3] true
      (by decide) (by decide)).2.2.1

/-- Counterexample for C9 as stated: for `"%#p%d"` with buffer `0x02` the
first directive is the spec-rejected `%#p`, yet `remaining` is empty, not
the original buffer — the skipped `%d` consumed the byte. -/
theorem claim9_remaining_counterexample :
    ((formatMsg (strCodes "%#p%d") [2] true).args.map fun a => (a.status, a.raw)) =
        [(ArgStatus.error, []), (ArgStatus.skipped, [2])] ∧
      (formatMsg (strCodes "%#p%d") [2] true).remaining = [] ∧
      ¬ (formatMsg (strCodes "%#p%d") [2] true).remaining = [2] := by
  decide


/-- A pointer specifier with in-range value is a legal pair. -/
theorem legalPair_pointer (s : FormatSpec) (v : Int) (herr : s.err = false)
    (hconv : s.conv = 112) (hsz : s.sizeBits = 32) (h0 : 0 ≤ v) (hlt : v < 2 ^ 32) :
    legalPair s (.int v) = true := by
  unfold legalPair
  rw [herr, hconv, hsz]
  norm_num at hlt
  simp [h0, hlt]

/-- C10: the force-sign and space-sign flags are accepted for `%p` and the
sign character is prepended to the whole `0x`-prefixed rendering: for
every 32-bit pointer value, `%+p` renders `+` followed by the pointer
rendering and `% p` renders a space followed by it, with `ok()` true. -/
theorem claim10_pointer_sign_flags (v : Int) (h0 : 0 ≤ v) (hlt : v < 2 ^ 32) :
    (formatMsg (strCodes "%+p") (encodeArg (.int v)) true).ok = true ∧
      (formatMsg (strCodes "%+p") (encodeArg (.int v)) true).value =
        43 :: ([48, 120] ++ padLeft 48 8 (natToDigits 16 true v.natAbs)) ∧
      (formatMsg (strCodes "% p") (encodeArg (.int v)) true).ok = true ∧
      (formatMsg (strCodes "% p") (encodeArg (.int v)) true).value =
        32 :: ([48, 120] ++ padLeft 48 8 (natToDigits 16 true v.natAbs)) := by
  have hleg1 : legalPair (parseSpec [43, 112]).1 (.int v) = true :=
    legalPair_pointer _ v (by decide) (by decide) (by decide) h0 hlt
  have hleg2 : legalPair (parseSpec [32, 112]).1 (.int v) = true :=
    legalPair_pointer _ v (by decide) (by decide) (by decide) h0 hlt
  have r1 := roundtrip_single (strCodes "%+p") (parseSpec [43, 112]).1 (.int v)
    (by decide) hleg1
  have r2 := roundtrip_single (strCodes "% p") (parseSpec [32, 112]).1 (.int v)
    (by decide) hleg2
  have hrender1 : renderDirect (parseSpec [43, 112]).1 (.int v) =
      43 :: ([48, 120] ++ padLeft 48 8 (natToDigits 16 true v.natAbs)) := by
    unfold renderDirect
    rw [show decodedForm (.int v) = .int v from rfl]
    rw [renderSuccess_pointer _ v (by decide) (by decide) (by decide) (by decide) h0]
    rfl
  have hrender2 : renderDirect (parseSpec [32, 112]).1 (.int v) =
      32 :: ([48, 120] ++ padLeft 48 8 (natToDigits 16 true v.natAbs)) := by
    unfold renderDirect
    rw [show decodedForm (.int v) = .int v from rfl]
    rw [renderSuccess_pointer _ v (by decide) (by decide) (by decide) (by decide) h0]
    rfl
  refine ⟨r1.1, ?_, r2.1, ?_⟩
  · rw [r1.2.2.1, hrender1]
  · rw [r2.2.2.1, hrender2]

/-- Witness for C10 at value 0xDEADBEEF: renders `+0xDEADBEEF` and
` 0xDEADBEEF`. -/
theorem claim10_pointer_sign_flags_witness :
    (formatMsg (strCodes "%+p") (encodeArg (.int 0xDEADBEEF)) true).ok = true ∧
      (formatMsg (strCodes "%+p") (encodeArg (.int 0xDEADBEEF)) true).value =
        strCodes "+0xDEADBEEF" ∧
      (formatMsg (strCodes "% p") (encodeArg (.int 0xDEADBEEF)) true).value =
        strCodes " 0xDEADBEEF" := by
  refine ⟨?_, by decide, by decide⟩
  exact (claim10_pointer_sign_flags 0xDEADBEEF (by decide) (by decide)).1

end Pw
